import Mathlib

/-!
A shallow embedding of `nervaluate/evaluate.py`: span-level NER evaluation in
the style of SemEval-2013 task 9.1, with four scoring schemes (strict,
ent_type, partial, exact) tracked simultaneously, overall and per label.

Python `dict`s of counters become Lean structures; the per-label result
dictionary (whose keys are the scored tags) becomes a total function
`String → Schemes` that is zero away from the scored tags; Python `float`
becomes `Rat`; the mutable per-document scan state becomes explicit state
passing.  The Python field name `end` is a Lean keyword and is rendered
`end_`; the Python counter key `partial` is rendered `partial_`.
-/

/-- A named-entity span: inclusive offsets `start` and `end_` plus a `label`.
This is exactly the record produced by `clean_entities` in the Python code,
which strips an entity down to the keys `start`, `end`, `label`. -/
structure Span where
  start : Int
  end_ : Int
  label : String
  deriving DecidableEq, Repr

/-- The counter record used throughout `evaluate.py`: the five scenario
counters, the derived `possible`/`actual`, and the derived ratios. -/
structure Metrics where
  correct : Nat
  incorrect : Nat
  partial_ : Nat
  missed : Nat
  spurious : Nat
  possible : Nat
  actual : Nat
  precision : Rat
  «recall» : Rat
  f1 : Rat
  deriving DecidableEq, Repr

/-- The zero-initialised counter record (`metrics_results` in `__init__`,
`eval_metrics` in `compute_metrics`). -/
def Metrics.zero : Metrics :=
  ⟨0, 0, 0, 0, 0, 0, 0, 0, 0, 0⟩

/-- One `Metrics` record per scheme: the dict
`{"strict": …, "ent_type": …, "partial": …, "exact": …}`. -/
structure Schemes where
  strict : Metrics
  ent_type : Metrics
  partial_ : Metrics
  exact : Metrics
  deriving DecidableEq, Repr

/-- Four zeroed counter records. -/
def Schemes.zero : Schemes :=
  ⟨Metrics.zero, Metrics.zero, Metrics.zero, Metrics.zero⟩

/-- Modelled from the spec: `find_overlap` is imported from
`nervaluate/utils.py`, which is not among the sources.  The spec (§4.2)
defines the overlap test as non-empty intersection of the inclusive integer
ranges — the call sites pass `range(start, end + 1)` for the true and the
predicted span.  The intersection of two integer ranges is non-empty iff the
larger of the starts does not exceed the smaller of the ends (this is also
false whenever either range is empty, as it is for `set` intersection in
Python). -/
def find_overlap (true_range pred_range : Int × Int) : Bool :=
  decide (max true_range.1 pred_range.1 ≤ min true_range.2 pred_range.2)

/-- Python's `clean_entities`: keep just the `start`, `end`, `label` keys.  A `Span`
already carries exactly those three fields, so this is the identity on the
embedded record. -/
def clean_entities (ent : Span) : Span :=
  { start := ent.start, end_ := ent.end_, label := ent.label }

def Metrics.incCorrect (m : Metrics) : Metrics :=
  { m with correct := m.correct + 1 }

def Metrics.incIncorrect (m : Metrics) : Metrics :=
  { m with incorrect := m.incorrect + 1 }

def Metrics.incPartial (m : Metrics) : Metrics :=
  { m with partial_ := m.partial_ + 1 }

def Metrics.incMissed (m : Metrics) : Metrics :=
  { m with missed := m.missed + 1 }

def Metrics.incSpurious (m : Metrics) : Metrics :=
  { m with spurious := m.spurious + 1 }

/-- Scenario I (exact match): `correct` in all four schemes. -/
def scenarioI (s : Schemes) : Schemes :=
  { strict := s.strict.incCorrect, ent_type := s.ent_type.incCorrect,
    partial_ := s.partial_.incCorrect, exact := s.exact.incCorrect }

/-- Scenario II (spurious): `spurious` in all four schemes. -/
def scenarioII (s : Schemes) : Schemes :=
  { strict := s.strict.incSpurious, ent_type := s.ent_type.incSpurious,
    partial_ := s.partial_.incSpurious, exact := s.exact.incSpurious }

/-- Scenario III (missed): `missed` in all four schemes. -/
def scenarioIII (s : Schemes) : Schemes :=
  { strict := s.strict.incMissed, ent_type := s.ent_type.incMissed,
    partial_ := s.partial_.incMissed, exact := s.exact.incMissed }

/-- Scenario IV (boundaries match, type differs): `incorrect` for strict and
ent_type, `correct` for partial and exact. -/
def scenarioIV (s : Schemes) : Schemes :=
  { strict := s.strict.incIncorrect, ent_type := s.ent_type.incIncorrect,
    partial_ := s.partial_.incCorrect, exact := s.exact.incCorrect }

/-- Scenario V (partial overlap, same type): `incorrect` for strict and
exact, `correct` for ent_type, `partial` for partial. -/
def scenarioV (s : Schemes) : Schemes :=
  { strict := s.strict.incIncorrect, ent_type := s.ent_type.incCorrect,
    partial_ := s.partial_.incPartial, exact := s.exact.incIncorrect }

/-- Scenario VI (partial overlap, different type): `incorrect` for strict,
ent_type and exact, `partial` for partial. -/
def scenarioVI (s : Schemes) : Schemes :=
  { strict := s.strict.incIncorrect, ent_type := s.ent_type.incIncorrect,
    partial_ := s.partial_.incPartial, exact := s.exact.incIncorrect }

/-- Insert `x` into `l` after every element `y` with `le y x`; the helper of
`stableSort`. -/
def insertSorted (le : Span → Span → Bool) (x : Span) : List Span → List Span
  | [] => [x]
  | y :: ys => if le y x then y :: insertSorted le x ys else x :: y :: ys

/-- A stable sort (insertion sort).  Python's `list.sort` is stable, and the
output of a stable sort is uniquely determined by the key relation — ties keep
their original order — so this is extensionally the sort used by
`compute_metrics`, in a structurally recursive form the kernel can
evaluate. -/
def stableSort (le : Span → Span → Bool) (l : List Span) : List Span :=
  l.foldl (fun acc x => insertSorted le x acc) []

/-- Point update of the per-label dictionary. -/
def updAgg (agg : String → Schemes) (l : String) (f : Schemes → Schemes) :
    String → Schemes :=
  fun x => if x = l then f (agg x) else agg x

/-- The mutable state of one `compute_metrics` call: the overall counters
(`evaluation`), the per-label counters (`evaluation_agg_entities_type`) and
the list `true_which_overlapped_with_pred`. -/
structure DocState where
  evaluation : Schemes
  agg : String → Schemes
  overlapped : List Span

/-- The inner `for true in true_named_entities` loop of `compute_metrics`
for one prediction that is not an exact match.  Returns the updated state
and the final `found_overlap` flag.  Both `break`s of the Python loop —
the early termination on `pred.end < true.start` and the one ending
Scenario IV — stop the recursion; Scenarios V and VI do not `break`. -/
def scanTrues (pred : Span) : List Span → DocState → Bool → DocState × Bool
  | [], st, fo => (st, fo)
  | t :: rest, st, fo =>
    if pred.end_ < t.start then
      (st, fo)
    else if t.start = pred.start ∧ pred.end_ = t.end_ ∧ t.label ≠ pred.label then
      ({ evaluation := scenarioIV st.evaluation,
         agg := updAgg st.agg t.label scenarioIV,
         overlapped := st.overlapped ++ [t] }, true)
    else if find_overlap (t.start, t.end_) (pred.start, pred.end_) ∧ t ∉ st.overlapped then
      let st1 : DocState :=
        { st with overlapped := st.overlapped ++ [t] }
      if pred.label = t.label then
        scanTrues pred rest
          { st1 with evaluation := scenarioV st1.evaluation,
                     agg := updAgg st1.agg t.label scenarioV } true
      else
        scanTrues pred rest
          { st1 with evaluation := scenarioVI st1.evaluation,
                     agg := updAgg st1.agg t.label scenarioVI } true
    else
      scanTrues pred rest st fo

/-- The body of the outer `for pred in pred_named_entities` loop: exact-match
membership test first, otherwise the overlap scan, and the spurious fallback
when no overlap was found. -/
def processPred (tags : List String) (trues : List Span) (st : DocState)
    (pred : Span) : DocState :=
  if pred ∈ trues then
    { evaluation := scenarioI st.evaluation,
      agg := updAgg st.agg pred.label scenarioI,
      overlapped := st.overlapped ++ [pred] }
  else
    let r := scanTrues pred trues st false
    if r.2 then r.1
    else
      let spurious_tags := if pred.label ∈ tags then [pred.label] else tags
      { evaluation := scenarioII r.1.evaluation,
        agg := spurious_tags.foldl (fun a l => updAgg a l scenarioII) r.1.agg,
        overlapped := r.1.overlapped }

/-- The `Scenario III` loop body: a true span never recorded in
`true_which_overlapped_with_pred` is missed. -/
def missedStep (st : DocState) (t : Span) : DocState :=
  if t ∈ st.overlapped then st
  else
    { st with evaluation := scenarioIII st.evaluation,
              agg := updAgg st.agg t.label scenarioIII }

/-- Python's `compute_actual_possible`: populate `possible` and `actual` from the five
scenario counters. -/
def compute_actual_possible (results : Metrics) : Metrics :=
  { results with
    possible := results.correct + results.incorrect + results.partial_ + results.missed,
    actual := results.correct + results.incorrect + results.partial_ + results.spurious }

/-- Apply `compute_actual_possible` to each scheme of a result set. -/
def capSchemes (s : Schemes) : Schemes :=
  { strict := compute_actual_possible s.strict,
    ent_type := compute_actual_possible s.ent_type,
    partial_ := compute_actual_possible s.partial_,
    exact := compute_actual_possible s.exact }

/-- The initial state of one `compute_metrics` call. -/
def initDocState : DocState :=
  ⟨Schemes.zero, fun _ => Schemes.zero, []⟩

/-- Python's `compute_metrics`: filter both span lists down to the scored tags and
strip them with `clean_entities`, sort trues by `start` and preds by `end`,
run the prediction loop, mark the missed true spans, and finally populate
`possible`/`actual` overall and on every key of the per-label dict (the
dict's keys are the scored tags; away from them the embedded function stays
at its zero value). -/
def compute_metrics (true_named_entities pred_named_entities : List Span)
    (tags : List String) : Schemes × (String → Schemes) :=
  let trues :=
    stableSort (fun a b => decide (a.start ≤ b.start))
      ((true_named_entities.filter (fun ent => decide (ent.label ∈ tags))).map
        clean_entities)
  let preds :=
    stableSort (fun a b => decide (a.end_ ≤ b.end_))
      ((pred_named_entities.filter (fun ent => decide (ent.label ∈ tags))).map
        clean_entities)
  let st1 := preds.foldl (processPred tags trues) initDocState
  let st2 := trues.foldl missedStep st1
  (capSchemes st2.evaluation,
   fun l => if l ∈ tags then capSchemes (st2.agg l) else st2.agg l)

/-- The overlap scan without the early-termination test `pred.end < t.start`:
every true span is examined for this prediction.  The Scenario IV `break` is
kept — it is part of scenario resolution, not of the early-termination
optimisation.  Reference implementation for the refinement claim about the
sorted scan. -/
def scanTruesNoBreak (pred : Span) :
    List Span → DocState → Bool → DocState × Bool
  | [], st, fo => (st, fo)
  | t :: rest, st, fo =>
    if t.start = pred.start ∧ pred.end_ = t.end_ ∧ t.label ≠ pred.label then
      ({ evaluation := scenarioIV st.evaluation,
         agg := updAgg st.agg t.label scenarioIV,
         overlapped := st.overlapped ++ [t] }, true)
    else if find_overlap (t.start, t.end_) (pred.start, pred.end_) ∧ t ∉ st.overlapped then
      let st1 : DocState :=
        { st with overlapped := st.overlapped ++ [t] }
      if pred.label = t.label then
        scanTruesNoBreak pred rest
          { st1 with evaluation := scenarioV st1.evaluation,
                     agg := updAgg st1.agg t.label scenarioV } true
      else
        scanTruesNoBreak pred rest
          { st1 with evaluation := scenarioVI st1.evaluation,
                     agg := updAgg st1.agg t.label scenarioVI } true
    else
      scanTruesNoBreak pred rest st fo

/-- Variant of `processPred` with the naive (no early termination) scan. -/
def processPredNaive (tags : List String) (trues : List Span) (st : DocState)
    (pred : Span) : DocState :=
  if pred ∈ trues then
    { evaluation := scenarioI st.evaluation,
      agg := updAgg st.agg pred.label scenarioI,
      overlapped := st.overlapped ++ [pred] }
  else
    let r := scanTruesNoBreak pred trues st false
    if r.2 then r.1
    else
      let spurious_tags := if pred.label ∈ tags then [pred.label] else tags
      { evaluation := scenarioII r.1.evaluation,
        agg := spurious_tags.foldl (fun a l => updAgg a l scenarioII) r.1.agg,
        overlapped := r.1.overlapped }

/-- Variant of `compute_metrics` with the naive scan: same tag filtering, same sorting,
but every true span is examined for every prediction. -/
def compute_metrics_naive (true_named_entities pred_named_entities : List Span)
    (tags : List String) : Schemes × (String → Schemes) :=
  let trues :=
    stableSort (fun a b => decide (a.start ≤ b.start))
      ((true_named_entities.filter (fun ent => decide (ent.label ∈ tags))).map
        clean_entities)
  let preds :=
    stableSort (fun a b => decide (a.end_ ≤ b.end_))
      ((pred_named_entities.filter (fun ent => decide (ent.label ∈ tags))).map
        clean_entities)
  let st1 := preds.foldl (processPredNaive tags trues) initDocState
  let st2 := trues.foldl missedStep st1
  (capSchemes st2.evaluation,
   fun l => if l ∈ tags then capSchemes (st2.agg l) else st2.agg l)

/-- Python's `compute_precision_recall`: populate `precision`, `recall`, `f1` from
`correct`, `partial`, `actual`, `possible`.  The flag `partial_or_type`
selects the half-credit formula used for the partial and ent_type schemes. -/
def compute_precision_recall (results : Metrics) (partial_or_type : Bool) :
    Metrics :=
  let actual := results.actual
  let possible := results.possible
  let precision : Rat :=
    if partial_or_type then
      if actual > 0 then ((results.correct : Rat) + (1 / 2) * results.partial_) / actual else 0
    else
      if actual > 0 then (results.correct : Rat) / actual else 0
  let recall_ : Rat :=
    if partial_or_type then
      if possible > 0 then ((results.correct : Rat) + (1 / 2) * results.partial_) / possible else 0
    else
      if possible > 0 then (results.correct : Rat) / possible else 0
  { results with
    precision := precision,
    «recall» := recall_,
    f1 := if precision + recall_ > 0 then 2 * (precision * recall_) / (precision + recall_) else 0 }

/-- Python's `compute_precision_recall_wrapper`: half-credit formula for the partial
and ent_type schemes, plain formula for strict and exact. -/
def compute_precision_recall_wrapper (results : Schemes) : Schemes :=
  { strict := compute_precision_recall results.strict false,
    ent_type := compute_precision_recall results.ent_type true,
    partial_ := compute_precision_recall results.partial_ true,
    exact := compute_precision_recall results.exact false }

/-- Field-wise sum of two counter records, as in the accumulation loops of
`Evaluator.evaluate`, which run over all ten keys. -/
def Metrics.add (a b : Metrics) : Metrics :=
  ⟨a.correct + b.correct, a.incorrect + b.incorrect, a.partial_ + b.partial_,
   a.missed + b.missed, a.spurious + b.spurious, a.possible + b.possible,
   a.actual + b.actual, a.precision + b.precision, a.«recall» + b.«recall»,
   a.f1 + b.f1⟩

/-- Field-wise sum of two scheme result sets. -/
def Schemes.add (a b : Schemes) : Schemes :=
  ⟨a.strict.add b.strict, a.ent_type.add b.ent_type,
   a.partial_.add b.partial_, a.exact.add b.exact⟩

/-- The state owned by an `Evaluator` instance: `self.results` and
`self.evaluation_agg_entities_type`. -/
structure EvaluatorState where
  results : Schemes
  agg : String → Schemes

/-- The zero-initialised state built by `Evaluator.__init__` (the per-label
dict holds a zeroed result set for every scored tag; away from the tags the
embedded function is never consulted and stays zero). -/
def initState : EvaluatorState :=
  ⟨Schemes.zero, fun _ => Schemes.zero⟩

/-- The per-label accumulation loop of `Evaluator.evaluate`: for each scored
tag in order, add that label's per-document counters into the running
per-label record and recompute its precision/recall. -/
def aggFold (tags : List String) (tmpAgg : String → Schemes)
    (agg : String → Schemes) : String → Schemes :=
  tags.foldl
    (fun a l => fun x =>
      if x = l then compute_precision_recall_wrapper ((a x).add (tmpAgg x)) else a x)
    agg

/-- One iteration of the document loop in `Evaluator.evaluate`: compute the
per-document metrics, add every counter field-wise into the running totals,
recompute the overall precision/recall, then for each scored tag add the
per-document per-label counters and recompute that label's
precision/recall. -/
def docStep (tags : List String) (st : EvaluatorState)
    (doc : List Span × List Span) : EvaluatorState :=
  let tmp := compute_metrics doc.1 doc.2 tags
  ⟨compute_precision_recall_wrapper (st.results.add tmp.1),
   aggFold tags tmp.2 st.agg⟩

/-- The document loop of `Evaluator.evaluate`, starting from a given state. -/
def Evaluator.run (tags : List String) (st : EvaluatorState)
    (docs : List (List Span × List Span)) : EvaluatorState :=
  docs.foldl (docStep tags) st

/-- Python's `Evaluator.evaluate` with the default loader: check the document counts,
then fold the document loop over `zip(true, pred)`.  The Python method raises
`ValueError` on a count mismatch (embedded as `Except.error`, the state left
untouched) and otherwise returns `(self.results,
self.evaluation_agg_entities_type)` after mutating the state. -/
def Evaluator.evaluate (true_docs pred_docs : List (List Span))
    (tags : List String) (st : EvaluatorState) :
    Except String (Schemes × (String → Schemes)) × EvaluatorState :=
  if true_docs.length ≠ pred_docs.length then
    (Except.error "Number of predicted documents does not equal true", st)
  else
    let st2 := Evaluator.run tags st (true_docs.zip pred_docs)
    (Except.ok (st2.results, st2.agg), st2)

example : (compute_metrics [⟨0, 2, "PER"⟩] [⟨0, 2, "PER"⟩] ["PER"]).1.strict.correct = 1 := by
  decide

example : (compute_metrics [⟨0, 2, "PER"⟩] [⟨0, 2, "ORG"⟩] ["PER", "ORG"]).1.strict.incorrect = 1 ∧
    (compute_metrics [⟨0, 2, "PER"⟩] [⟨0, 2, "ORG"⟩] ["PER", "ORG"]).1.exact.correct = 1 := by
  decide

example : (compute_metrics [⟨0, 5, "PER"⟩] [⟨0, 3, "PER"⟩] ["PER"]).1.partial_.partial_ = 1 ∧
    (compute_metrics [⟨0, 5, "PER"⟩] [⟨0, 3, "PER"⟩] ["PER"]).1.ent_type.correct = 1 ∧
    ((compute_metrics [⟨0, 5, "PER"⟩] [⟨0, 3, "PER"⟩] ["PER"]).2 "PER").strict.incorrect = 1 := by
  decide

/-! ## Basic facts about the embedded helpers -/

theorem clean_entities_eq (ent : Span) : clean_entities ent = ent :=
  rfl

theorem mem_insertSorted {le : Span → Span → Bool} {x a : Span} {l : List Span} :
    a ∈ insertSorted le x l ↔ a = x ∨ a ∈ l := by
  induction l with
  | nil => simp [insertSorted]
  | cons y ys ih =>
    cases hle : le y x with
    | false => simp only [insertSorted, hle, Bool.false_eq_true, if_false, List.mem_cons]
    | true => simp only [insertSorted, hle, if_true, List.mem_cons, ih]; tauto

theorem mem_stableSort {le : Span → Span → Bool} {a : Span} {l : List Span} :
    a ∈ stableSort le l ↔ a ∈ l := by
  suffices h : ∀ acc, (a ∈ l.foldl (fun acc x => insertSorted le x acc) acc ↔ a ∈ acc ∨ a ∈ l) by
    simpa [stableSort] using h []
  induction l with
  | nil => intro acc; simp
  | cons y ys ih =>
    intro acc
    simp only [List.foldl_cons, ih, mem_insertSorted, List.mem_cons]
    tauto

theorem pairwise_insertSorted {le : Span → Span → Bool}
    (htot : ∀ a b, le a b = true ∨ le b a = true)
    (htrans : ∀ a b c, le a b = true → le b c = true → le a c = true)
    {x : Span} {l : List Span}
    (h : l.Pairwise (fun a b => le a b = true)) :
    (insertSorted le x l).Pairwise (fun a b => le a b = true) := by
  induction l with
  | nil => simp [insertSorted]
  | cons y ys ih =>
    rcases List.pairwise_cons.mp h with ⟨hy, hys⟩
    cases hle : le y x with
    | false =>
      have hxy : le x y = true := by
        rcases htot x y with h1 | h1
        · exact h1
        · rw [hle] at h1; exact absurd h1 (by simp)
      simp only [insertSorted, hle, Bool.false_eq_true, if_false]
      refine List.pairwise_cons.mpr ⟨?_, List.pairwise_cons.mpr ⟨hy, hys⟩⟩
      intro b hb
      rcases List.mem_cons.mp hb with rfl | hb
      · exact hxy
      · exact htrans x y b hxy (hy b hb)
    | true =>
      simp only [insertSorted, hle, if_true]
      refine List.pairwise_cons.mpr ⟨?_, ih hys⟩
      intro b hb
      rcases mem_insertSorted.mp hb with rfl | hb
      · exact hle
      · exact hy b hb

theorem pairwise_stableSort {le : Span → Span → Bool}
    (htot : ∀ a b, le a b = true ∨ le b a = true)
    (htrans : ∀ a b c, le a b = true → le b c = true → le a c = true)
    (l : List Span) :
    (stableSort le l).Pairwise (fun a b => le a b = true) := by
  suffices h : ∀ acc, acc.Pairwise (fun a b => le a b = true) →
      (l.foldl (fun acc x => insertSorted le x acc) acc).Pairwise (fun a b => le a b = true) by
    exact h [] (by simp)
  induction l with
  | nil => intro acc hacc; simpa using hacc
  | cons y ys ih =>
    intro acc hacc
    exact ih _ (pairwise_insertSorted htot htrans hacc)

/-- The true spans of `compute_metrics` are sorted ascending by `start`. -/
theorem pairwise_start_sorted (l : List Span) :
    (stableSort (fun a b => decide (a.start ≤ b.start)) l).Pairwise
      (fun a b => a.start ≤ b.start) := by
  have h := @pairwise_stableSort (fun a b => decide (a.start ≤ b.start))
    (fun a b => by rcases Int.le_total a.start b.start with h | h <;> simp [h])
    (fun a b c h1 h2 => by
      simp only [decide_eq_true_eq] at h1 h2 ⊢
      exact le_trans h1 h2) l
  exact h.imp (fun hab => by simpa using hab)

/-- Every span surviving the tag filter carries a scored label. -/
theorem label_mem_of_mem_filtered {le : Span → Span → Bool} {l : List Span}
    {tags : List String} {x : Span}
    (hx : x ∈ stableSort le ((l.filter (fun ent => decide (ent.label ∈ tags))).map
      clean_entities)) :
    x.label ∈ tags := by
  rcases List.mem_map.mp (mem_stableSort.mp hx) with ⟨y, hy, rfl⟩
  have := List.of_mem_filter hy
  simpa [clean_entities_eq] using this

/-! ## C7: length mismatch is fatal and leaves the state untouched -/

/-- C7: `evaluate` fails with the length-mismatch error whenever the number of
true documents differs from the number of predicted documents; the error is
raised before any document is processed, no result is returned, and the
evaluator state (in particular the zero-initialised fresh state) is left
exactly as it was. -/
theorem evaluate_length_mismatch (true_docs pred_docs : List (List Span))
    (tags : List String) (st : EvaluatorState)
    (h : true_docs.length ≠ pred_docs.length) :
    Evaluator.evaluate true_docs pred_docs tags st =
      (Except.error "Number of predicted documents does not equal true", st) := by
  simp [Evaluator.evaluate, h]

/-- Witness for C7 at a concrete mismatched input, starting from the
zero-initialised state. -/
theorem evaluate_length_mismatch_witness :
    ([[⟨0, 1, "A"⟩]] : List (List Span)).length ≠ ([] : List (List Span)).length ∧
      Evaluator.evaluate [[⟨0, 1, "A"⟩]] [] ["A"] initState =
        (Except.error "Number of predicted documents does not equal true", initState) :=
  ⟨by decide, evaluate_length_mismatch _ _ _ _ (by decide)⟩

/-! ## C8: spans with unscored labels are filtered out and change nothing -/

theorem filter_drop_middle {tags : List String} {s : Span} (h : s.label ∉ tags)
    (t1 t2 : List Span) :
    (t1 ++ s :: t2).filter (fun ent => decide (ent.label ∈ tags)) =
      (t1 ++ t2).filter (fun ent => decide (ent.label ∈ tags)) := by
  simp [List.filter_append, List.filter_cons, h]

/-- C8: a true or predicted span whose label is not in the scored tag set is
removed before matching and contributes to no counter of any scheme: deleting
it from the document leaves the whole `compute_metrics` result — all four
schemes, overall and per label — unchanged, so it is never counted and can
neither match nor be matched by any remaining span. -/
theorem unscored_span_ignored (tags : List String) (s : Span) (h : s.label ∉ tags) :
    (∀ t1 t2 p, compute_metrics (t1 ++ s :: t2) p tags = compute_metrics (t1 ++ t2) p tags) ∧
      (∀ t p1 p2, compute_metrics t (p1 ++ s :: p2) tags = compute_metrics t (p1 ++ p2) tags) := by
  constructor
  · intro t1 t2 p
    simp only [compute_metrics, filter_drop_middle h]
  · intro t p1 p2
    simp only [compute_metrics, filter_drop_middle h]

/-- Witness for C8 at a concrete input: an unscored "MISC" span is dropped
from the middle of either list without changing the result. -/
theorem unscored_span_ignored_witness :
    ("MISC" : String) ∉ ["PER"] ∧
      compute_metrics [⟨0, 2, "PER"⟩, ⟨4, 6, "MISC"⟩] [⟨0, 2, "PER"⟩] ["PER"] =
        compute_metrics [⟨0, 2, "PER"⟩] [⟨0, 2, "PER"⟩] ["PER"] :=
  ⟨by decide, by
    have h := (unscored_span_ignored ["PER"] ⟨4, 6, "MISC"⟩ (by decide)).1
      [⟨0, 2, "PER"⟩] [] [⟨0, 2, "PER"⟩]
    simpa using h⟩

/-! ## C1: one prediction can match several true spans -/

/-- C1 counterexample: with true spans `(0,2,A)` and `(4,6,A)` and the single
prediction `(0,10,A)`, the prediction partially overlaps both true spans and
the scan does not stop after the first one field: every scheme receives two
counter increments from this one prediction (`actual = 2`, and in particular
`strict.incorrect = 2`), refuting "each predicted span contributes exactly
one counter increment to each of the four schemes". -/
theorem prediction_resolves_once_refuted :
    (compute_metrics [⟨0, 2, "A"⟩, ⟨4, 6, "A"⟩] [⟨0, 10, "A"⟩] ["A"]).1.strict.incorrect = 2 ∧
      (compute_metrics [⟨0, 2, "A"⟩, ⟨4, 6, "A"⟩] [⟨0, 10, "A"⟩] ["A"]).1.strict.actual = 2 ∧
      (compute_metrics [⟨0, 2, "A"⟩, ⟨4, 6, "A"⟩] [⟨0, 10, "A"⟩] ["A"]).1.ent_type.actual = 2 ∧
      (compute_metrics [⟨0, 2, "A"⟩, ⟨4, 6, "A"⟩] [⟨0, 10, "A"⟩] ["A"]).1.partial_.actual = 2 ∧
      (compute_metrics [⟨0, 2, "A"⟩, ⟨4, 6, "A"⟩] [⟨0, 10, "A"⟩] ["A"]).1.exact.actual = 2 := by
  decide

/-- C1 amended: a boundary-mismatch (Scenario IV) resolves the prediction and
stops its scan, but a same- or different-type partial overlap does not stop
the scan, so one prediction can go on to match further unconsumed true spans
and contribute one counter increment per matched true span.  First input: the
prediction `(0,10,A)` matches both true spans, giving two increments per
scheme; second input: the Scenario IV hit on `(0,5,B)` stops the scan, so the
same-type overlap with `(3,8,A)` is never examined (`actual = 1`, the second
true span is missed). -/
theorem prediction_overlap_scan_behaviour :
    ((compute_metrics [⟨0, 2, "A"⟩, ⟨4, 6, "A"⟩] [⟨0, 10, "A"⟩] ["A"]).1.strict.incorrect = 2 ∧
      (compute_metrics [⟨0, 2, "A"⟩, ⟨4, 6, "A"⟩] [⟨0, 10, "A"⟩] ["A"]).1.partial_.partial_ = 2 ∧
      (compute_metrics [⟨0, 2, "A"⟩, ⟨4, 6, "A"⟩] [⟨0, 10, "A"⟩] ["A"]).1.strict.spurious = 0) ∧
    ((compute_metrics [⟨0, 5, "B"⟩, ⟨3, 8, "A"⟩] [⟨0, 5, "A"⟩] ["A", "B"]).1.strict.actual = 1 ∧
      (compute_metrics [⟨0, 5, "B"⟩, ⟨3, 8, "A"⟩] [⟨0, 5, "A"⟩] ["A", "B"]).1.strict.incorrect = 1 ∧
      (compute_metrics [⟨0, 5, "B"⟩, ⟨3, 8, "A"⟩] [⟨0, 5, "A"⟩] ["A", "B"]).1.strict.missed = 1) := by
  decide

/-! ## C3: the matched mark is only consulted by the partial-overlap scenarios -/

/-- C3 counterexample: one true span `(0,2,A)` and two predictions identical
to it.  The exact-match test is plain membership in the true list and never
consults the matched mark, so both predictions score `correct` and neither is
spurious — refuting "only one prediction scores correct and the other is
spurious". -/
theorem true_span_single_use_refuted :
    (compute_metrics [⟨0, 2, "A"⟩] [⟨0, 2, "A"⟩, ⟨0, 2, "A"⟩] ["A"]).1.strict.correct = 2 ∧
      (compute_metrics [⟨0, 2, "A"⟩] [⟨0, 2, "A"⟩, ⟨0, 2, "A"⟩] ["A"]).1.strict.spurious = 0 ∧
      (compute_metrics [⟨0, 2, "A"⟩] [⟨0, 2, "A"⟩, ⟨0, 2, "A"⟩] ["A"]).1.ent_type.correct = 2 ∧
      (compute_metrics [⟨0, 2, "A"⟩] [⟨0, 2, "A"⟩, ⟨0, 2, "A"⟩] ["A"]).1.partial_.correct = 2 ∧
      (compute_metrics [⟨0, 2, "A"⟩] [⟨0, 2, "A"⟩, ⟨0, 2, "A"⟩] ["A"]).1.exact.correct = 2 := by
  decide

/-- C3 amended: only the partial-overlap scenarios (V and VI) consult the
matched mark.  An exact match is scored by membership in the true list
regardless of marks — with one true span and two identical predictions both
score correct, none is spurious, and `possible` even becomes 2 — and Scenario
IV likewise ignores the marks (second input: the true span already consumed
by an exact match still resolves a later boundary-matching prediction of a
different type as `incorrect`, not spurious).  Under Scenarios V and VI an
already-matched true span never resolves a later prediction (third input: the
prediction overlapping only the consumed true span is spurious). -/
theorem matched_mark_scope :
    ((compute_metrics [⟨0, 2, "A"⟩] [⟨0, 2, "A"⟩, ⟨0, 2, "A"⟩] ["A"]).1.strict.correct = 2 ∧
      (compute_metrics [⟨0, 2, "A"⟩] [⟨0, 2, "A"⟩, ⟨0, 2, "A"⟩] ["A"]).1.strict.spurious = 0 ∧
      (compute_metrics [⟨0, 2, "A"⟩] [⟨0, 2, "A"⟩, ⟨0, 2, "A"⟩] ["A"]).1.strict.possible = 2) ∧
    ((compute_metrics [⟨0, 2, "A"⟩] [⟨0, 2, "A"⟩, ⟨0, 2, "B"⟩] ["A", "B"]).1.strict.correct = 1 ∧
      (compute_metrics [⟨0, 2, "A"⟩] [⟨0, 2, "A"⟩, ⟨0, 2, "B"⟩] ["A", "B"]).1.strict.incorrect = 1 ∧
      (compute_metrics [⟨0, 2, "A"⟩] [⟨0, 2, "A"⟩, ⟨0, 2, "B"⟩] ["A", "B"]).1.strict.spurious = 0) ∧
    ((compute_metrics [⟨0, 5, "A"⟩] [⟨0, 5, "A"⟩, ⟨3, 9, "A"⟩] ["A"]).1.strict.correct = 1 ∧
      (compute_metrics [⟨0, 5, "A"⟩] [⟨0, 5, "A"⟩, ⟨3, 9, "A"⟩] ["A"]).1.strict.spurious = 1 ∧
      (compute_metrics [⟨0, 5, "A"⟩] [⟨0, 5, "A"⟩, ⟨3, 9, "A"⟩] ["A"]).1.partial_.partial_ = 0) := by
  decide

/-! ## C9: the matched mark is value equality, duplicates collapse -/

/-- C9: the matched-true-span bookkeeping uses value equality on the
`(start, end, label)` record, not occurrence identity.  For every scored
label, a document whose true spans are two structurally identical copies of a
span and whose single prediction is identical to them records `correct = 1`
and `missed = 0` in every scheme — the duplicate gold occurrence is also
skipped by the missed loop, because membership in
`true_which_overlapped_with_pred` compares values — so `possible = 1` despite
the two gold annotations. -/
theorem duplicate_gold_counted_once (s e : Int) (lab : String) (tags : List String)
    (h : lab ∈ tags) :
    ((compute_metrics [⟨s, e, lab⟩, ⟨s, e, lab⟩] [⟨s, e, lab⟩] tags).1.strict.correct = 1 ∧
      (compute_metrics [⟨s, e, lab⟩, ⟨s, e, lab⟩] [⟨s, e, lab⟩] tags).1.strict.missed = 0 ∧
      (compute_metrics [⟨s, e, lab⟩, ⟨s, e, lab⟩] [⟨s, e, lab⟩] tags).1.strict.possible = 1) ∧
    ((compute_metrics [⟨s, e, lab⟩, ⟨s, e, lab⟩] [⟨s, e, lab⟩] tags).1.ent_type.correct = 1 ∧
      (compute_metrics [⟨s, e, lab⟩, ⟨s, e, lab⟩] [⟨s, e, lab⟩] tags).1.ent_type.missed = 0 ∧
      (compute_metrics [⟨s, e, lab⟩, ⟨s, e, lab⟩] [⟨s, e, lab⟩] tags).1.ent_type.possible = 1) ∧
    ((compute_metrics [⟨s, e, lab⟩, ⟨s, e, lab⟩] [⟨s, e, lab⟩] tags).1.partial_.correct = 1 ∧
      (compute_metrics [⟨s, e, lab⟩, ⟨s, e, lab⟩] [⟨s, e, lab⟩] tags).1.partial_.missed = 0 ∧
      (compute_metrics [⟨s, e, lab⟩, ⟨s, e, lab⟩] [⟨s, e, lab⟩] tags).1.partial_.possible = 1) ∧
    ((compute_metrics [⟨s, e, lab⟩, ⟨s, e, lab⟩] [⟨s, e, lab⟩] tags).1.exact.correct = 1 ∧
      (compute_metrics [⟨s, e, lab⟩, ⟨s, e, lab⟩] [⟨s, e, lab⟩] tags).1.exact.missed = 0 ∧
      (compute_metrics [⟨s, e, lab⟩, ⟨s, e, lab⟩] [⟨s, e, lab⟩] tags).1.exact.possible = 1) := by
  have hd : decide (lab ∈ tags) = true := decide_eq_true h
  have hss : decide (s ≤ s) = true := decide_eq_true (le_refl s)
  simp [compute_metrics, List.filter_cons, hd, clean_entities_eq, stableSort,
    insertSorted, hss, processPred, missedStep, capSchemes, compute_actual_possible,
    scenarioI, Metrics.incCorrect, Schemes.zero, Metrics.zero, initDocState, updAgg]

/-- Witness for C9 at a concrete scored label. -/
theorem duplicate_gold_counted_once_witness :
    ("A" : String) ∈ ["A", "B"] ∧
      (compute_metrics [⟨0, 2, "A"⟩, ⟨0, 2, "A"⟩] [⟨0, 2, "A"⟩] ["A", "B"]).1.strict.correct = 1 ∧
      (compute_metrics [⟨0, 2, "A"⟩, ⟨0, 2, "A"⟩] [⟨0, 2, "A"⟩] ["A", "B"]).1.strict.missed = 0 ∧
      (compute_metrics [⟨0, 2, "A"⟩, ⟨0, 2, "A"⟩] [⟨0, 2, "A"⟩] ["A", "B"]).1.strict.possible = 1 :=
  ⟨by decide, (duplicate_gold_counted_once 0 2 "A" ["A", "B"] (by decide)).1⟩

/-! ## C6: early termination versus the naive scan -/

theorem map_clean_entities (l : List Span) : l.map clean_entities = l := by
  induction l with
  | nil => rfl
  | cons a l ih => simp [ih, clean_entities_eq]

/-- Once the prediction ends strictly before every remaining true span starts,
the naive scan is a no-op — provided the true spans are well-formed
(`start ≤ end`), so that neither the Scenario IV boundary test nor the
overlap test can fire. -/
theorem scanTruesNoBreak_nop (pred : Span) (trues : List Span)
    (hwf : ∀ t ∈ trues, t.start ≤ t.end_)
    (hlt : ∀ t ∈ trues, pred.end_ < t.start) :
    ∀ st fo, scanTruesNoBreak pred trues st fo = (st, fo) := by
  induction trues with
  | nil => intro st fo; rfl
  | cons t rest ih =>
    intro st fo
    have hwt : t.start ≤ t.end_ := hwf t (by simp)
    have hltt : pred.end_ < t.start := hlt t (by simp)
    have hIV : ¬(t.start = pred.start ∧ pred.end_ = t.end_ ∧ t.label ≠ pred.label) := by
      rintro ⟨h1, h2, h3⟩
      omega
    have hov : ¬(find_overlap (t.start, t.end_) (pred.start, pred.end_) = true ∧
        t ∉ st.overlapped) := by
      rintro ⟨h1, h2⟩
      simp only [find_overlap, decide_eq_true_eq] at h1
      have h3 : t.start ≤ max t.start pred.start := le_max_left _ _
      have h4 : min t.end_ pred.end_ ≤ pred.end_ := min_le_right _ _
      omega
    simp only [scanTruesNoBreak, if_neg hIV, if_neg hov]
    exact ih (fun x hx => hwf x (List.mem_cons_of_mem _ hx))
      (fun x hx => hlt x (List.mem_cons_of_mem _ hx)) st fo

/-- On a true-span list sorted ascending by `start` whose spans are
well-formed, the scan with early termination agrees with the naive scan. -/
theorem scanTrues_eq_noBreak (pred : Span) :
    ∀ trues : List Span, trues.Pairwise (fun a b => a.start ≤ b.start) →
      (∀ t ∈ trues, t.start ≤ t.end_) →
      ∀ st fo, scanTrues pred trues st fo = scanTruesNoBreak pred trues st fo := by
  intro trues
  induction trues with
  | nil => intro _ _ st fo; rfl
  | cons t rest ih =>
    intro hpw hwf st fo
    rcases List.pairwise_cons.mp hpw with ⟨hts, hpw'⟩
    have hwf' : ∀ x ∈ rest, x.start ≤ x.end_ :=
      fun x hx => hwf x (List.mem_cons_of_mem _ hx)
    by_cases hbrk : pred.end_ < t.start
    · have hnop : scanTruesNoBreak pred (t :: rest) st fo = (st, fo) :=
        scanTruesNoBreak_nop pred (t :: rest) hwf
          (by
            intro x hx
            rcases List.mem_cons.mp hx with rfl | hx
            · exact hbrk
            · exact lt_of_lt_of_le hbrk (hts x hx))
          st fo
      rw [hnop]
      simp [scanTrues, hbrk]
    · by_cases hIV : t.start = pred.start ∧ pred.end_ = t.end_ ∧ t.label ≠ pred.label
      · simp only [scanTrues, scanTruesNoBreak, if_neg hbrk, if_pos hIV]
      · by_cases hovm : find_overlap (t.start, t.end_) (pred.start, pred.end_) = true ∧
            t ∉ st.overlapped
        · by_cases hlab : pred.label = t.label
          · simp only [scanTrues, scanTruesNoBreak, if_neg hbrk, if_neg hIV, if_pos hovm,
              if_pos hlab]
            exact ih hpw' hwf' _ _
          · simp only [scanTrues, scanTruesNoBreak, if_neg hbrk, if_neg hIV, if_pos hovm,
              if_neg hlab]
            exact ih hpw' hwf' _ _
        · simp only [scanTrues, scanTruesNoBreak, if_neg hbrk, if_neg hIV, if_neg hovm]
          exact ih hpw' hwf' st fo

/-- Per-prediction version of the scan equivalence. -/
theorem processPred_eq_naive (tags : List String) (trues : List Span)
    (hpw : trues.Pairwise (fun a b => a.start ≤ b.start))
    (hwf : ∀ t ∈ trues, t.start ≤ t.end_) (st : DocState) (pred : Span) :
    processPred tags trues st pred = processPredNaive tags trues st pred := by
  by_cases hmem : pred ∈ trues
  · simp [processPred, processPredNaive, hmem]
  · simp only [processPred, processPredNaive, if_neg hmem,
      scanTrues_eq_noBreak pred trues hpw hwf st false]

/-- C6 counterexample: the sorted scan with early termination and the naive
full scan disagree on a degenerate true span whose `end` lies before its
`start`.  With true span `(5,2,B)` and prediction `(5,2,A)` the optimised
scan hits `pred.end < t.start` and breaks at once (the prediction becomes
spurious, the true span missed), while the naive scan still examines the
span, fires Scenario IV — the boundary test does not require a non-empty
overlap — and records `incorrect` instead. -/
theorem sorted_scan_equivalence_refuted :
    (compute_metrics [⟨5, 2, "B"⟩] [⟨5, 2, "A"⟩] ["A", "B"]).1.strict.spurious = 1 ∧
      (compute_metrics [⟨5, 2, "B"⟩] [⟨5, 2, "A"⟩] ["A", "B"]).1.strict.missed = 1 ∧
      (compute_metrics_naive [⟨5, 2, "B"⟩] [⟨5, 2, "A"⟩] ["A", "B"]).1.strict.spurious = 0 ∧
      (compute_metrics_naive [⟨5, 2, "B"⟩] [⟨5, 2, "A"⟩] ["A", "B"]).1.strict.incorrect = 1 ∧
      (compute_metrics_naive [⟨5, 2, "B"⟩] [⟨5, 2, "A"⟩] ["A", "B"]).1.strict.missed = 0 := by
  decide

/-- C6 amended: provided every true span is well-formed (`start ≤ end`, as
entity mentions are), sorting trues by `start` and preds by `end` and
abandoning a prediction's scan as soon as `pred.end < true.start` produces
exactly the same four-scheme counts, overall and per label, as the naive
scan that examines every true span for every prediction. -/
theorem sorted_scan_eq_naive (t p : List Span) (tags : List String)
    (hwf : ∀ s ∈ t, s.start ≤ s.end_) :
    compute_metrics t p tags = compute_metrics_naive t p tags := by
  simp only [compute_metrics, compute_metrics_naive]
  have hfold :
      (stableSort (fun a b => decide (a.end_ ≤ b.end_))
          ((p.filter (fun ent => decide (ent.label ∈ tags))).map clean_entities)).foldl
        (processPred tags
          (stableSort (fun a b => decide (a.start ≤ b.start))
            ((t.filter (fun ent => decide (ent.label ∈ tags))).map clean_entities)))
        initDocState =
      (stableSort (fun a b => decide (a.end_ ≤ b.end_))
          ((p.filter (fun ent => decide (ent.label ∈ tags))).map clean_entities)).foldl
        (processPredNaive tags
          (stableSort (fun a b => decide (a.start ≤ b.start))
            ((t.filter (fun ent => decide (ent.label ∈ tags))).map clean_entities)))
        initDocState := by
    apply List.foldl_ext
    intro a x _
    apply processPred_eq_naive
    · exact pairwise_start_sorted _
    · intro x hx
      have hx2 := mem_stableSort.mp hx
      rw [map_clean_entities] at hx2
      exact hwf x (List.mem_of_mem_filter hx2)
  rw [hfold]

/-- Witness for the amended C6 on a concrete well-formed document. -/
theorem sorted_scan_eq_naive_witness :
    (∀ s ∈ [(⟨0, 2, "A"⟩ : Span), ⟨1, 6, "B"⟩], s.start ≤ s.end_) ∧
      compute_metrics [⟨0, 2, "A"⟩, ⟨1, 6, "B"⟩] [⟨0, 3, "A"⟩] ["A", "B"] =
        compute_metrics_naive [⟨0, 2, "A"⟩, ⟨1, 6, "B"⟩] [⟨0, 3, "A"⟩] ["A", "B"] :=
  ⟨by decide, sorted_scan_eq_naive _ _ _ (by decide)⟩

/-! ## C2: spurious attribution and per-label spurious sums -/

/-- The sum of one scheme's per-label `spurious` counters over the distinct
scored tags (the keys of the per-label dict). -/
def sumSpurious (tags : List String) (agg : String → Schemes)
    (proj : Schemes → Metrics) : Nat :=
  (tags.dedup.map (fun l => (proj (agg l)).spurious)).sum

/-- One of the four scheme projections, together with how the scenario
updates act on its `spurious` counter. -/
structure SchemeProj where
  proj : Schemes → Metrics
  proj_scenarioI : ∀ s, (proj (scenarioI s)).spurious = (proj s).spurious
  proj_scenarioII : ∀ s, (proj (scenarioII s)).spurious = (proj s).spurious + 1
  proj_scenarioIII : ∀ s, (proj (scenarioIII s)).spurious = (proj s).spurious
  proj_scenarioIV : ∀ s, (proj (scenarioIV s)).spurious = (proj s).spurious
  proj_scenarioV : ∀ s, (proj (scenarioV s)).spurious = (proj s).spurious
  proj_scenarioVI : ∀ s, (proj (scenarioVI s)).spurious = (proj s).spurious
  proj_cap : ∀ s, (proj (capSchemes s)).spurious = (proj s).spurious
  proj_zero : (proj Schemes.zero).spurious = 0

def strictProj : SchemeProj :=
  ⟨Schemes.strict, fun _ => rfl, fun _ => rfl, fun _ => rfl, fun _ => rfl,
   fun _ => rfl, fun _ => rfl, fun _ => rfl, rfl⟩

def entTypeProj : SchemeProj :=
  ⟨Schemes.ent_type, fun _ => rfl, fun _ => rfl, fun _ => rfl, fun _ => rfl,
   fun _ => rfl, fun _ => rfl, fun _ => rfl, rfl⟩

def partialProj : SchemeProj :=
  ⟨Schemes.partial_, fun _ => rfl, fun _ => rfl, fun _ => rfl, fun _ => rfl,
   fun _ => rfl, fun _ => rfl, fun _ => rfl, rfl⟩

def exactProj : SchemeProj :=
  ⟨Schemes.exact, fun _ => rfl, fun _ => rfl, fun _ => rfl, fun _ => rfl,
   fun _ => rfl, fun _ => rfl, fun _ => rfl, rfl⟩

theorem sumSpurious_congr {tags : List String} {agg agg' : String → Schemes}
    {proj : Schemes → Metrics}
    (h : ∀ l ∈ tags, (proj (agg' l)).spurious = (proj (agg l)).spurious) :
    sumSpurious tags agg' proj = sumSpurious tags agg proj := by
  unfold sumSpurious
  exact congrArg List.sum
    (List.map_congr_left (fun l hl => h l (List.mem_dedup.mp hl)))

theorem sumSpurious_updAgg_preserve {tags : List String} {agg : String → Schemes}
    {l : String} {f : Schemes → Schemes} {proj : Schemes → Metrics}
    (hf : ∀ s, (proj (f s)).spurious = (proj s).spurious) :
    sumSpurious tags (updAgg agg l f) proj = sumSpurious tags agg proj := by
  apply sumSpurious_congr
  intro x _
  unfold updAgg
  by_cases hx : x = l
  · simp [hx, hf]
  · simp [hx]

theorem sum_map_update_point (L : List String) (hnd : L.Nodup) (l : String)
    (hl : l ∈ L) (f g : String → Nat) (hne : ∀ x ∈ L, x ≠ l → g x = f x)
    (hinc : g l = f l + 1) :
    (L.map g).sum = (L.map f).sum + 1 := by
  induction L with
  | nil => cases hl
  | cons a L ih =>
    rcases List.nodup_cons.mp hnd with ⟨hna, hndL⟩
    rcases List.mem_cons.mp hl with rfl | hl'
    · have hrest : ∀ x ∈ L, g x = f x := by
        intro x hx
        exact hne x (List.mem_cons_of_mem _ hx) (fun hxa => hna (hxa ▸ hx))
      simp only [List.map_cons, List.sum_cons, hinc,
        List.map_congr_left hrest]
      omega
    · have hal : a ≠ l := fun h => hna (h ▸ hl')
      have hba : g a = f a := hne a (List.mem_cons_self a L) hal
      have := ih hndL hl' (fun x hx => hne x (List.mem_cons_of_mem _ hx))
      simp only [List.map_cons, List.sum_cons, hba, this]
      omega

theorem sumSpurious_updAgg_scenarioII {tags : List String} {agg : String → Schemes}
    {l : String} (P : SchemeProj) (hl : l ∈ tags) :
    sumSpurious tags (updAgg agg l scenarioII) P.proj =
      sumSpurious tags agg P.proj + 1 := by
  unfold sumSpurious
  apply sum_map_update_point tags.dedup (List.nodup_dedup tags) l
    (List.mem_dedup.mpr hl)
  · intro x _ hx
    unfold updAgg
    simp [hx]
  · unfold updAgg
    simp [P.proj_scenarioII]

/-- The overlap scan never touches a `spurious` counter, overall or
per label. -/
theorem scanTrues_spurious_preserved (tags : List String) (P : SchemeProj)
    (pred : Span) :
    ∀ (trues : List Span) (st : DocState) (fo : Bool),
      (P.proj (scanTrues pred trues st fo).1.evaluation).spurious =
          (P.proj st.evaluation).spurious ∧
        sumSpurious tags (scanTrues pred trues st fo).1.agg P.proj =
          sumSpurious tags st.agg P.proj := by
  intro trues
  induction trues with
  | nil => intro st fo; exact ⟨rfl, rfl⟩
  | cons t rest ih =>
    intro st fo
    by_cases hbrk : pred.end_ < t.start
    · simp [scanTrues, hbrk]
    · by_cases hIV : t.start = pred.start ∧ pred.end_ = t.end_ ∧ t.label ≠ pred.label
      · simp only [scanTrues, if_neg hbrk, if_pos hIV]
        exact ⟨P.proj_scenarioIV st.evaluation,
          sumSpurious_updAgg_preserve P.proj_scenarioIV⟩
      · by_cases hovm : find_overlap (t.start, t.end_) (pred.start, pred.end_) = true ∧
            t ∉ st.overlapped
        · by_cases hlab : pred.label = t.label
          · simp only [scanTrues, if_neg hbrk, if_neg hIV, if_pos hovm, if_pos hlab]
            refine ⟨(ih _ _).1.trans (P.proj_scenarioV st.evaluation),
              (ih _ _).2.trans (sumSpurious_updAgg_preserve P.proj_scenarioV)⟩
          · simp only [scanTrues, if_neg hbrk, if_neg hIV, if_pos hovm, if_neg hlab]
            refine ⟨(ih _ _).1.trans (P.proj_scenarioVI st.evaluation),
              (ih _ _).2.trans (sumSpurious_updAgg_preserve P.proj_scenarioVI)⟩
        · simp only [scanTrues, if_neg hbrk, if_neg hIV, if_neg hovm]
          exact ih st fo

/-- Each prediction with a scored label moves the per-label `spurious` sum
and the overall `spurious` counter in lockstep. -/
theorem processPred_spurious_inv (tags : List String) (P : SchemeProj)
    (trues : List Span) (st : DocState) (pred : Span)
    (hpred : pred.label ∈ tags)
    (hinv : sumSpurious tags st.agg P.proj = (P.proj st.evaluation).spurious) :
    sumSpurious tags (processPred tags trues st pred).agg P.proj =
      (P.proj (processPred tags trues st pred).evaluation).spurious := by
  by_cases hmem : pred ∈ trues
  · simp only [processPred, if_pos hmem]
    rw [sumSpurious_updAgg_preserve P.proj_scenarioI, P.proj_scenarioI]
    exact hinv
  · simp only [processPred, if_neg hmem]
    rcases scanTrues_spurious_preserved tags P pred trues st false with ⟨he, ha⟩
    by_cases hfo : (scanTrues pred trues st false).2
    · simp only [if_pos hfo]
      rw [ha, he]
      exact hinv
    · simp only [if_neg hfo, if_pos hpred]
      simp only [List.foldl_cons, List.foldl_nil]
      rw [sumSpurious_updAgg_scenarioII P hpred, P.proj_scenarioII, ha, he]
      rw [hinv]

/-- The missed loop never touches a `spurious` counter. -/
theorem missedStep_spurious_inv (tags : List String) (P : SchemeProj)
    (st : DocState) (t : Span)
    (hinv : sumSpurious tags st.agg P.proj = (P.proj st.evaluation).spurious) :
    sumSpurious tags (missedStep st t).agg P.proj =
      (P.proj (missedStep st t).evaluation).spurious := by
  by_cases hmem : t ∈ st.overlapped
  · simp only [missedStep, if_pos hmem]
    exact hinv
  · simp only [missedStep, if_neg hmem]
    rw [sumSpurious_updAgg_preserve P.proj_scenarioIII, P.proj_scenarioIII]
    exact hinv

/-- In every scheme, the per-label `spurious` counters summed over the
distinct scored tags equal the overall `spurious` counter, for every
document. -/
theorem sumSpurious_eq_overall (t p : List Span) (tags : List String)
    (P : SchemeProj) :
    sumSpurious tags (compute_metrics t p tags).2 P.proj =
      (P.proj (compute_metrics t p tags).1).spurious := by
  simp only [compute_metrics]
  set trues := stableSort (fun a b => decide (a.start ≤ b.start))
    ((t.filter (fun ent => decide (ent.label ∈ tags))).map clean_entities) with htr
  set preds := stableSort (fun a b => decide (a.end_ ≤ b.end_))
    ((p.filter (fun ent => decide (ent.label ∈ tags))).map clean_entities) with hpr
  have hpredtags : ∀ x ∈ preds, x.label ∈ tags := by
    intro x hx
    exact label_mem_of_mem_filtered (hpr ▸ hx)
  have hfold1 : ∀ (l : List Span) (st : DocState), (∀ x ∈ l, x.label ∈ tags) →
      sumSpurious tags st.agg P.proj = (P.proj st.evaluation).spurious →
      sumSpurious tags (l.foldl (processPred tags trues) st).agg P.proj =
        (P.proj ((l.foldl (processPred tags trues) st)).evaluation).spurious := by
    intro l
    induction l with
    | nil => intro st _ hinv; exact hinv
    | cons x xs ih =>
      intro st hmem hinv
      simp only [List.foldl_cons]
      exact ih _ (fun y hy => hmem y (List.mem_cons_of_mem _ hy))
        (processPred_spurious_inv tags P trues st x (hmem x (by simp)) hinv)
  have hfold2 : ∀ (l : List Span) (st : DocState),
      sumSpurious tags st.agg P.proj = (P.proj st.evaluation).spurious →
      sumSpurious tags (l.foldl missedStep st).agg P.proj =
        (P.proj ((l.foldl missedStep st)).evaluation).spurious := by
    intro l
    induction l with
    | nil => intro st hinv; exact hinv
    | cons x xs ih =>
      intro st hinv
      simp only [List.foldl_cons]
      exact ih _ (missedStep_spurious_inv tags P st x hinv)
  have hinit : sumSpurious tags initDocState.agg P.proj =
      (P.proj initDocState.evaluation).spurious := by
    have h1 : sumSpurious tags initDocState.agg P.proj = 0 := by
      unfold sumSpurious initDocState
      rw [@List.map_congr_left _ _ _ _ (fun _ => (0 : Nat)) (fun a _ => P.proj_zero)]
      simp
    rw [h1]
    exact P.proj_zero.symm
  rw [P.proj_cap]
  refine (sumSpurious_congr ?_).trans (hfold2 _ _ (hfold1 _ _ hpredtags hinit))
  intro l hl
  rw [if_pos hl, P.proj_cap]

/-- A prediction that overlaps no true span leaves the scan untouched: the
`break` cases return the state unchanged, Scenario IV cannot fire (when it is
reached the boundaries coincide and the early-termination test has already
ensured `t.start ≤ pred.end`, so the equal ranges do overlap), and Scenarios
V and VI require an overlap. -/
theorem scanTrues_no_overlap_nop (pred : Span) :
    ∀ trues : List Span,
      (∀ t ∈ trues, find_overlap (t.start, t.end_) (pred.start, pred.end_) = false) →
      ∀ st, scanTrues pred trues st false = (st, false) := by
  intro trues
  induction trues with
  | nil => intro _ st; rfl
  | cons t rest ih =>
    intro hov st
    have hovt := hov t (by simp)
    by_cases hbrk : pred.end_ < t.start
    · simp [scanTrues, hbrk]
    · have hIV : ¬(t.start = pred.start ∧ pred.end_ = t.end_ ∧ t.label ≠ pred.label) := by
        rintro ⟨h1, h2, _⟩
        have : find_overlap (t.start, t.end_) (pred.start, pred.end_) = true := by
          simp only [find_overlap, decide_eq_true_eq, h1, ← h2]
          simp
          omega
        rw [this] at hovt
        cases hovt
      have hovm : ¬(find_overlap (t.start, t.end_) (pred.start, pred.end_) = true ∧
          t ∉ st.overlapped) := by
        rintro ⟨h1, _⟩
        rw [h1] at hovt
        cases hovt
      simp only [scanTrues, if_neg hbrk, if_neg hIV, if_neg hovm]
      exact ih (fun x hx => hov x (List.mem_cons_of_mem _ hx)) st

/-- A prediction with a scored label that exactly matches no true span and
overlaps no true span is classified spurious: all four overall `spurious`
counters are bumped and the per-label spurious count is attributed to the
single label `pred.label`. -/
theorem unmatched_pred_spurious (tags : List String) (trues : List Span)
    (st : DocState) (pred : Span) (hmem : pred ∉ trues)
    (hov : ∀ t ∈ trues, find_overlap (t.start, t.end_) (pred.start, pred.end_) = false)
    (htag : pred.label ∈ tags) :
    processPred tags trues st pred =
      { evaluation := scenarioII st.evaluation,
        agg := updAgg st.agg pred.label scenarioII,
        overlapped := st.overlapped } := by
  simp only [processPred, if_neg hmem, scanTrues_no_overlap_nop pred trues hov st,
    if_pos htag]
  simp

/-- C2 counterexample: because `compute_metrics` filters the predictions down
to the scored tags before matching, the label of every spurious prediction is
in the scored tag set, the "attribute to every scored label" fallback is
unreachable, and the per-label spurious sums always *equal* the overall
spurious total — there is no input on which they exceed it, in any scheme,
refuting the claim's final consequence. -/
theorem spurious_overcount_refuted :
    ¬ ∃ (t p : List Span) (tags : List String),
        sumSpurious tags (compute_metrics t p tags).2 Schemes.strict >
            (compute_metrics t p tags).1.strict.spurious ∨
          sumSpurious tags (compute_metrics t p tags).2 Schemes.ent_type >
            (compute_metrics t p tags).1.ent_type.spurious ∨
          sumSpurious tags (compute_metrics t p tags).2 Schemes.partial_ >
            (compute_metrics t p tags).1.partial_.spurious ∨
          sumSpurious tags (compute_metrics t p tags).2 Schemes.exact >
            (compute_metrics t p tags).1.exact.spurious := by
  rintro ⟨t, p, tags, h⟩
  rcases h with h | h | h | h
  · exact absurd (sumSpurious_eq_overall t p tags strictProj) (ne_of_gt h)
  · exact absurd (sumSpurious_eq_overall t p tags entTypeProj) (ne_of_gt h)
  · exact absurd (sumSpurious_eq_overall t p tags partialProj) (ne_of_gt h)
  · exact absurd (sumSpurious_eq_overall t p tags exactProj) (ne_of_gt h)

/-- C2 amended: a predicted span that exactly matches no true span and
overlaps no true span is counted spurious in all four schemes overall and is
attributed to the single label `pred.label` — which is always in the scored
tag set, because predictions are label-filtered before matching, so the
"attribute to every scored label" fallback is unreachable and the per-label
spurious sums always equal (never exceed) the overall spurious total, in
every scheme. -/
theorem spurious_attribution (tags : List String) :
    (∀ (trues : List Span) (st : DocState) (pred : Span), pred ∉ trues →
        (∀ t ∈ trues, find_overlap (t.start, t.end_) (pred.start, pred.end_) = false) →
        pred.label ∈ tags →
        processPred tags trues st pred =
          { evaluation := scenarioII st.evaluation,
            agg := updAgg st.agg pred.label scenarioII,
            overlapped := st.overlapped }) ∧
      ∀ t p : List Span,
        (sumSpurious tags (compute_metrics t p tags).2 Schemes.strict =
            (compute_metrics t p tags).1.strict.spurious) ∧
          (sumSpurious tags (compute_metrics t p tags).2 Schemes.ent_type =
            (compute_metrics t p tags).1.ent_type.spurious) ∧
          (sumSpurious tags (compute_metrics t p tags).2 Schemes.partial_ =
            (compute_metrics t p tags).1.partial_.spurious) ∧
          (sumSpurious tags (compute_metrics t p tags).2 Schemes.exact =
            (compute_metrics t p tags).1.exact.spurious) := by
  refine ⟨fun trues st pred hmem hov htag =>
    unmatched_pred_spurious tags trues st pred hmem hov htag, fun t p => ?_⟩
  exact ⟨sumSpurious_eq_overall t p tags strictProj,
    sumSpurious_eq_overall t p tags entTypeProj,
    sumSpurious_eq_overall t p tags partialProj,
    sumSpurious_eq_overall t p tags exactProj⟩

/-- Witness for the amended C2: a concrete unmatched prediction is classified
spurious and attributed to its own label, and on a concrete document the
per-label strict spurious sum equals the overall strict spurious counter. -/
theorem spurious_attribution_witness :
    (processPred ["A"] [⟨0, 2, "A"⟩] initDocState ⟨7, 9, "A"⟩ =
        { evaluation := scenarioII initDocState.evaluation,
          agg := updAgg initDocState.agg "A" scenarioII,
          overlapped := initDocState.overlapped }) ∧
      sumSpurious ["A"] (compute_metrics [⟨0, 2, "A"⟩] [⟨7, 9, "A"⟩] ["A"]).2
          Schemes.strict =
        (compute_metrics [⟨0, 2, "A"⟩] [⟨7, 9, "A"⟩] ["A"]).1.strict.spurious :=
  ⟨(spurious_attribution ["A"]).1 [⟨0, 2, "A"⟩] initDocState ⟨7, 9, "A"⟩
      (by decide) (by decide) (by decide),
    ((spurious_attribution ["A"]).2 [⟨0, 2, "A"⟩] [⟨7, 9, "A"⟩]).1⟩

/-! ## Counter bookkeeping for the Evaluator-level claims -/

/-- The seven counter fields of a metrics record, without the derived
ratios. -/
structure Counters where
  correct : Nat
  incorrect : Nat
  partial_ : Nat
  missed : Nat
  spurious : Nat
  possible : Nat
  actual : Nat
  deriving DecidableEq, Repr

def Metrics.counters (m : Metrics) : Counters :=
  ⟨m.correct, m.incorrect, m.partial_, m.missed, m.spurious, m.possible, m.actual⟩

def Counters.add (a b : Counters) : Counters :=
  ⟨a.correct + b.correct, a.incorrect + b.incorrect, a.partial_ + b.partial_,
   a.missed + b.missed, a.spurious + b.spurious, a.possible + b.possible,
   a.actual + b.actual⟩

theorem Counters.add_assoc (a b c : Counters) :
    (a.add b).add c = a.add (b.add c) := by
  simp [Counters.add, Nat.add_assoc]

theorem Counters.add_right_comm (a b c : Counters) :
    (a.add b).add c = (a.add c).add b := by
  simp [Counters.add]
  omega

theorem Counters.zero_add (c : Counters) : (Metrics.zero.counters).add c = c := by
  simp [Counters.add, Metrics.zero, Metrics.counters]

theorem Counters.add_zero (c : Counters) : c.add (Metrics.zero.counters) = c := by
  simp [Counters.add, Metrics.zero, Metrics.counters]

/-- Selecting one of the four schemes, together with the precision/recall
flag used for it and how the selection commutes with the `Evaluator`'s
operations. -/
structure SchemeSel where
  sel : Schemes → Metrics
  flag : Bool
  sel_wrapper : ∀ s, sel (compute_precision_recall_wrapper s) =
    compute_precision_recall (sel s) flag
  sel_add : ∀ a b : Schemes, sel (a.add b) = (sel a).add (sel b)
  sel_zero : sel Schemes.zero = Metrics.zero

def strictSel : SchemeSel :=
  ⟨Schemes.strict, false, fun _ => rfl, fun _ _ => rfl, rfl⟩

def entTypeSel : SchemeSel :=
  ⟨Schemes.ent_type, true, fun _ => rfl, fun _ _ => rfl, rfl⟩

def partialSel : SchemeSel :=
  ⟨Schemes.partial_, true, fun _ => rfl, fun _ _ => rfl, rfl⟩

def exactSel : SchemeSel :=
  ⟨Schemes.exact, false, fun _ => rfl, fun _ _ => rfl, rfl⟩

/-- `compute_precision_recall` only writes the three ratio fields. -/
theorem cpr_counters (m : Metrics) (flag : Bool) :
    (compute_precision_recall m flag).counters = m.counters :=
  rfl

/-- `Metrics.add` adds the counter fields. -/
theorem add_counters (a b : Metrics) :
    (a.add b).counters = a.counters.add b.counters :=
  rfl

/-! ## The per-label dict stays zero away from the scored tags -/

theorem updAgg_off {agg : String → Schemes} {k : String} {f : Schemes → Schemes}
    {l : String} (h : k ≠ l) : updAgg agg k f l = agg l := by
  simp [updAgg, Ne.symm h]

theorem scanTrues_agg_off (pred : Span) (l : String) :
    ∀ (trues : List Span) (st : DocState) (fo : Bool),
      (∀ t ∈ trues, t.label ≠ l) →
      (scanTrues pred trues st fo).1.agg l = st.agg l := by
  intro trues
  induction trues with
  | nil => intro st fo _; rfl
  | cons t rest ih =>
    intro st fo hlab
    have ht : t.label ≠ l := hlab t (by simp)
    have hrest : ∀ x ∈ rest, x.label ≠ l :=
      fun x hx => hlab x (List.mem_cons_of_mem _ hx)
    by_cases hbrk : pred.end_ < t.start
    · simp [scanTrues, hbrk]
    · by_cases hIV : t.start = pred.start ∧ pred.end_ = t.end_ ∧ t.label ≠ pred.label
      · simp only [scanTrues, if_neg hbrk, if_pos hIV]
        exact updAgg_off ht
      · by_cases hovm : find_overlap (t.start, t.end_) (pred.start, pred.end_) = true ∧
            t ∉ st.overlapped
        · by_cases hlab2 : pred.label = t.label
          · simp only [scanTrues, if_neg hbrk, if_neg hIV, if_pos hovm, if_pos hlab2]
            rw [ih _ _ hrest]
            exact updAgg_off ht
          · simp only [scanTrues, if_neg hbrk, if_neg hIV, if_pos hovm, if_neg hlab2]
            rw [ih _ _ hrest]
            exact updAgg_off ht
        · simp only [scanTrues, if_neg hbrk, if_neg hIV, if_neg hovm]
          exact ih st fo hrest

theorem processPred_agg_off (tags : List String) (trues : List Span)
    (st : DocState) (pred : Span) (l : String) (hl : l ∉ tags)
    (htr : ∀ t ∈ trues, t.label ∈ tags) (hpl : pred.label ∈ tags) :
    (processPred tags trues st pred).agg l = st.agg l := by
  have htr' : ∀ t ∈ trues, t.label ≠ l := fun t ht hh => hl (hh ▸ htr t ht)
  have hpl' : pred.label ≠ l := fun hh => hl (hh ▸ hpl)
  by_cases hmem : pred ∈ trues
  · simp only [processPred, if_pos hmem]
    exact updAgg_off hpl'
  · simp only [processPred, if_neg hmem]
    by_cases hfo : (scanTrues pred trues st false).2
    · simp only [if_pos hfo]
      exact scanTrues_agg_off pred l trues st false htr'
    · simp only [if_neg hfo, if_pos hpl, List.foldl_cons, List.foldl_nil]
      rw [updAgg_off hpl']
      exact scanTrues_agg_off pred l trues st false htr'

theorem missedStep_agg_off (st : DocState) (t : Span) (l : String)
    (ht : t.label ≠ l) : (missedStep st t).agg l = st.agg l := by
  by_cases hmem : t ∈ st.overlapped
  · simp [missedStep, hmem]
  · simp only [missedStep, if_neg hmem]
    exact updAgg_off ht

/-- A label outside the scored tag set has the zero record in the per-label
result of `compute_metrics` (its key is absent from the Python dict). -/
theorem compute_metrics_agg_off (t p : List Span) (tags : List String)
    (l : String) (hl : l ∉ tags) :
    (compute_metrics t p tags).2 l = Schemes.zero := by
  simp only [compute_metrics]
  rw [if_neg hl]
  set trues := stableSort (fun a b => decide (a.start ≤ b.start))
    ((t.filter (fun ent => decide (ent.label ∈ tags))).map clean_entities) with htr
  set preds := stableSort (fun a b => decide (a.end_ ≤ b.end_))
    ((p.filter (fun ent => decide (ent.label ∈ tags))).map clean_entities) with hpr
  have htrl : ∀ x ∈ trues, x.label ∈ tags :=
    fun x hx => label_mem_of_mem_filtered (htr ▸ hx)
  have hprl : ∀ x ∈ preds, x.label ∈ tags :=
    fun x hx => label_mem_of_mem_filtered (hpr ▸ hx)
  have h1 : ∀ (L : List Span) (st : DocState), (∀ x ∈ L, x.label ∈ tags) →
      (L.foldl (processPred tags trues) st).agg l = st.agg l := by
    intro L
    induction L with
    | nil => intro st _; rfl
    | cons x xs ih =>
      intro st hmem
      simp only [List.foldl_cons]
      rw [ih _ (fun y hy => hmem y (List.mem_cons_of_mem _ hy))]
      exact processPred_agg_off tags trues st x l hl htrl (hmem x (by simp))
  have h2 : ∀ (L : List Span) (st : DocState), (∀ x ∈ L, x.label ≠ l) →
      (L.foldl missedStep st).agg l = st.agg l := by
    intro L
    induction L with
    | nil => intro st _; rfl
    | cons x xs ih =>
      intro st hmem
      simp only [List.foldl_cons]
      rw [ih _ (fun y hy => hmem y (List.mem_cons_of_mem _ hy))]
      exact missedStep_agg_off st x l (hmem x (by simp))
  rw [h2 _ _ (fun x hx hh => hl (hh ▸ htrl x hx)), h1 _ _ hprl]
  rfl

/-! ## C4: possible and actual versus the five scenario counters -/

/-- The derived-field invariant of one metrics record:
`possible = correct + incorrect + partial + missed` and
`actual = correct + incorrect + partial + spurious`. -/
def Metrics.papInv (m : Metrics) : Prop :=
  m.possible = m.correct + m.incorrect + m.partial_ + m.missed ∧
    m.actual = m.correct + m.incorrect + m.partial_ + m.spurious

/-- The derived-field invariant for all four schemes at once. -/
def Schemes.papInv (s : Schemes) : Prop :=
  s.strict.papInv ∧ s.ent_type.papInv ∧ s.partial_.papInv ∧ s.exact.papInv

theorem cap_papInv (s : Schemes) : (capSchemes s).papInv :=
  ⟨⟨rfl, rfl⟩, ⟨rfl, rfl⟩, ⟨rfl, rfl⟩, ⟨rfl, rfl⟩⟩

theorem zero_papInv : Schemes.zero.papInv :=
  ⟨⟨rfl, rfl⟩, ⟨rfl, rfl⟩, ⟨rfl, rfl⟩, ⟨rfl, rfl⟩⟩

theorem add_papInv {a b : Schemes} (ha : a.papInv) (hb : b.papInv) :
    (a.add b).papInv := by
  obtain ⟨⟨a1, a2⟩, ⟨a3, a4⟩, ⟨a5, a6⟩, ⟨a7, a8⟩⟩ := ha
  obtain ⟨⟨b1, b2⟩, ⟨b3, b4⟩, ⟨b5, b6⟩, ⟨b7, b8⟩⟩ := hb
  refine ⟨⟨?_, ?_⟩, ⟨?_, ?_⟩, ⟨?_, ?_⟩, ⟨?_, ?_⟩⟩ <;>
    simp only [Schemes.add, Metrics.add] <;> omega

theorem wrapper_papInv {s : Schemes} (hs : s.papInv) :
    (compute_precision_recall_wrapper s).papInv :=
  hs

/-- Every record produced by `compute_metrics` — overall and for every label —
satisfies the derived-field invariant, because `compute_actual_possible` is
applied to every scheme on every key and absent keys are zero. -/
theorem compute_metrics_papInv (t p : List Span) (tags : List String) :
    (compute_metrics t p tags).1.papInv ∧
      ∀ l, ((compute_metrics t p tags).2 l).papInv := by
  constructor
  · exact cap_papInv _
  · intro l
    by_cases hl : l ∈ tags
    · simp only [compute_metrics]
      rw [if_pos hl]
      exact cap_papInv _
    · rw [compute_metrics_agg_off t p tags l hl]
      exact zero_papInv

theorem aggFold_papInv (tags' : List String) (tmpAgg : String → Schemes)
    (htmp : ∀ x, (tmpAgg x).papInv) :
    ∀ (a : String → Schemes), (∀ x, (a x).papInv) →
      ∀ x, ((aggFold tags' tmpAgg a) x).papInv := by
  induction tags' with
  | nil => intro a ha x; exact ha x
  | cons k ks ih =>
    intro a ha x
    refine ih _ (fun y => ?_) x
    by_cases hy : y = k
    · simp only [if_pos hy]
      exact wrapper_papInv (add_papInv (ha y) (htmp y))
    · simp only [if_neg hy]
      exact ha y

theorem run_papInv (tags : List String) :
    ∀ (docs : List (List Span × List Span)) (st : EvaluatorState),
      st.results.papInv → (∀ l, (st.agg l).papInv) →
      (Evaluator.run tags st docs).results.papInv ∧
        ∀ l, ((Evaluator.run tags st docs).agg l).papInv := by
  intro docs
  induction docs with
  | nil => intro st h1 h2; exact ⟨h1, h2⟩
  | cons d ds ih =>
    intro st h1 h2
    refine ih (docStep tags st d) ?_ ?_
    · exact wrapper_papInv (add_papInv h1 (compute_metrics_papInv d.1 d.2 tags).1)
    · exact aggFold_papInv tags _ (compute_metrics_papInv d.1 d.2 tags).2 st.agg h2

/-- C4: for every input with matching document counts, `evaluate` returns the
accumulated overall and per-label result sets, and in every scheme — overall
and for every label — the derived fields satisfy
`possible = correct + incorrect + partial + missed` and
`actual = correct + incorrect + partial + spurious` after calculation. -/
theorem evaluate_possible_actual_invariant (td pd : List (List Span))
    (tags : List String) (h : td.length = pd.length) :
    Evaluator.evaluate td pd tags initState =
        (Except.ok ((Evaluator.run tags initState (td.zip pd)).results,
            (Evaluator.run tags initState (td.zip pd)).agg),
          Evaluator.run tags initState (td.zip pd)) ∧
      (Evaluator.run tags initState (td.zip pd)).results.papInv ∧
      ∀ l, ((Evaluator.run tags initState (td.zip pd)).agg l).papInv := by
  refine ⟨by simp [Evaluator.evaluate, h], ?_⟩
  exact run_papInv tags (td.zip pd) initState zero_papInv (fun _ => zero_papInv)

/-- Witness for C4 on a concrete two-document corpus. -/
theorem evaluate_possible_actual_invariant_witness :
    ([[⟨0, 2, "A"⟩], [⟨3, 4, "B"⟩]] : List (List Span)).length =
        ([[⟨0, 2, "A"⟩], [⟨3, 5, "B"⟩]] : List (List Span)).length ∧
      (Evaluator.run ["A", "B"] initState
          ([[⟨0, 2, "A"⟩], [⟨3, 4, "B"⟩]].zip [[⟨0, 2, "A"⟩], [⟨3, 5, "B"⟩]])).results.papInv :=
  ⟨by decide,
    (evaluate_possible_actual_invariant [[⟨0, 2, "A"⟩], [⟨3, 4, "B"⟩]]
      [[⟨0, 2, "A"⟩], [⟨3, 5, "B"⟩]] ["A", "B"] (by decide)).2.1⟩

/-! ## C5: the precision/recall/f1 formulas on accumulated totals -/

/-- The formulas of `compute_precision_recall`, as a relation between one
record's ratio fields and its own counters: plain credit when `flag = false`
(used for strict and exact), half credit for `partial` when `flag = true`
(used for partial and ent_type), with the zero-guards, and the harmonic-mean
`f1` with its own guard. -/
def Metrics.prFormula (m : Metrics) (flag : Bool) : Prop :=
  (m.precision = if flag then
      (if m.actual > 0 then ((m.correct : Rat) + (1 / 2) * m.partial_) / m.actual else 0)
    else (if m.actual > 0 then (m.correct : Rat) / m.actual else 0)) ∧
  (m.«recall» = if flag then
      (if m.possible > 0 then ((m.correct : Rat) + (1 / 2) * m.partial_) / m.possible else 0)
    else (if m.possible > 0 then (m.correct : Rat) / m.possible else 0)) ∧
  (m.f1 = if m.precision + m.«recall» > 0 then
      2 * (m.precision * m.«recall») / (m.precision + m.«recall») else 0)

/-- The formula relation for all four schemes with their respective flags. -/
def Schemes.prFormulas (s : Schemes) : Prop :=
  s.strict.prFormula false ∧ s.ent_type.prFormula true ∧
    s.partial_.prFormula true ∧ s.exact.prFormula false

theorem cpr_prFormula (m : Metrics) (flag : Bool) :
    (compute_precision_recall m flag).prFormula flag :=
  ⟨rfl, rfl, rfl⟩

theorem zero_prFormula (flag : Bool) : Metrics.zero.prFormula flag := by
  cases flag <;> simp [Metrics.prFormula, Metrics.zero]

theorem wrapper_prFormulas (s : Schemes) :
    (compute_precision_recall_wrapper s).prFormulas :=
  ⟨cpr_prFormula _ _, cpr_prFormula _ _, cpr_prFormula _ _, cpr_prFormula _ _⟩

theorem zero_prFormulas : Schemes.zero.prFormulas :=
  ⟨zero_prFormula _, zero_prFormula _, zero_prFormula _, zero_prFormula _⟩

theorem aggFold_prFormulas (tags' : List String) (tmpAgg : String → Schemes) :
    ∀ (a : String → Schemes), (∀ x, (a x).prFormulas) →
      ∀ x, ((aggFold tags' tmpAgg a) x).prFormulas := by
  induction tags' with
  | nil => intro a ha x; exact ha x
  | cons k ks ih =>
    intro a ha x
    refine ih _ (fun y => ?_) x
    by_cases hy : y = k
    · simp only [if_pos hy]
      exact wrapper_prFormulas _
    · simp only [if_neg hy]
      exact ha y

theorem run_prFormulas (tags : List String) :
    ∀ (docs : List (List Span × List Span)) (st : EvaluatorState),
      st.results.prFormulas → (∀ l, (st.agg l).prFormulas) →
      (Evaluator.run tags st docs).results.prFormulas ∧
        ∀ l, ((Evaluator.run tags st docs).agg l).prFormulas := by
  intro docs
  induction docs with
  | nil => intro st h1 h2; exact ⟨h1, h2⟩
  | cons d ds ih =>
    intro st h1 h2
    refine ih (docStep tags st d) (wrapper_prFormulas _) ?_
    exact aggFold_prFormulas tags _ st.agg h2

/-- C5: every accumulated result record — in every scheme, overall and for
every label — satisfies the scheme's precision/recall formulas and the
harmonic-mean `f1` formula on the *accumulated* totals: for strict and exact
`precision = correct/actual` and `recall = correct/possible` (0 when the
denominator is 0); for partial and ent_type the half-credit numerator
`correct + 0.5·partial` is used; and
`f1 = 2·precision·recall/(precision+recall)` when `precision + recall > 0`,
else 0. -/
theorem accumulated_precision_recall_formulas (td pd : List (List Span))
    (tags : List String) :
    (Evaluator.run tags initState (td.zip pd)).results.prFormulas ∧
      ∀ l, ((Evaluator.run tags initState (td.zip pd)).agg l).prFormulas :=
  run_prFormulas tags (td.zip pd) initState zero_prFormulas (fun _ => zero_prFormulas)

/-! ## C10: evaluate accumulates without resetting -/

theorem sel_wrapper_counters (S : SchemeSel) (s : Schemes) :
    (S.sel (compute_precision_recall_wrapper s)).counters = (S.sel s).counters := by
  rw [S.sel_wrapper]
  exact cpr_counters _ _

theorem aggFold_rel (S : SchemeSel) (tags' : List String)
    (tmpAgg : String → Schemes) :
    ∀ (a b : String → Schemes) (d : String → Counters),
      (∀ x, (S.sel (b x)).counters = (S.sel (a x)).counters.add (d x)) →
      ∀ x, (S.sel ((aggFold tags' tmpAgg b) x)).counters =
        (S.sel ((aggFold tags' tmpAgg a) x)).counters.add (d x) := by
  induction tags' with
  | nil => intro a b d hrel x; exact hrel x
  | cons k ks ih =>
    intro a b d hrel x
    refine ih _ _ d (fun y => ?_) x
    by_cases hy : y = k
    · simp only [if_pos hy]
      rw [sel_wrapper_counters, sel_wrapper_counters, S.sel_add, S.sel_add,
        add_counters, add_counters, hrel y]
      exact Counters.add_right_comm _ _ _
    · simp only [if_neg hy]
      exact hrel y

/-- Two evaluator states whose counters differ by a constant offset keep
exactly that offset through the document loop: accumulation is additive in
the starting state and the ratio recomputation never touches the counters. -/
theorem run_rel (S : SchemeSel) (tags : List String) :
    ∀ (docs : List (List Span × List Span)) (a b : EvaluatorState)
      (D : Counters) (d : String → Counters),
      (S.sel b.results).counters = (S.sel a.results).counters.add D →
      (∀ x, (S.sel (b.agg x)).counters = (S.sel (a.agg x)).counters.add (d x)) →
      ((S.sel (Evaluator.run tags b docs).results).counters =
          (S.sel (Evaluator.run tags a docs).results).counters.add D ∧
        ∀ x, (S.sel ((Evaluator.run tags b docs).agg x)).counters =
          (S.sel ((Evaluator.run tags a docs).agg x)).counters.add (d x)) := by
  intro docs
  induction docs with
  | nil => intro a b D d h1 h2; exact ⟨h1, h2⟩
  | cons doc ds ih =>
    intro a b D d h1 h2
    refine ih (docStep tags a doc) (docStep tags b doc) D d ?_ ?_
    · show (S.sel (compute_precision_recall_wrapper
          (b.results.add (compute_metrics doc.1 doc.2 tags).1))).counters =
        (S.sel (compute_precision_recall_wrapper
          (a.results.add (compute_metrics doc.1 doc.2 tags).1))).counters.add D
      rw [sel_wrapper_counters, sel_wrapper_counters, S.sel_add, S.sel_add,
        add_counters, add_counters, h1]
      exact Counters.add_right_comm _ _ _
    · show ∀ x, (S.sel ((aggFold tags (compute_metrics doc.1 doc.2 tags).2 b.agg) x)).counters =
        (S.sel ((aggFold tags (compute_metrics doc.1 doc.2 tags).2 a.agg) x)).counters.add (d x)
      exact aggFold_rel S tags _ a.agg b.agg d h2

/-- Running the document loop a second time from the state left by the first
run adds each counter to itself, in every scheme, overall and per label. -/
theorem run_twice_counters (tags : List String)
    (docs : List (List Span × List Span)) (S : SchemeSel) :
    ((S.sel (Evaluator.run tags (Evaluator.run tags initState docs) docs).results).counters =
        (S.sel (Evaluator.run tags initState docs).results).counters.add
          (S.sel (Evaluator.run tags initState docs).results).counters) ∧
      ∀ x, (S.sel ((Evaluator.run tags (Evaluator.run tags initState docs) docs).agg x)).counters =
        (S.sel ((Evaluator.run tags initState docs).agg x)).counters.add
          (S.sel ((Evaluator.run tags initState docs).agg x)).counters := by
  refine run_rel S tags docs initState (Evaluator.run tags initState docs) _ _ ?_ ?_
  · have hz : S.sel initState.results = Metrics.zero := S.sel_zero
    rw [hz]
    exact (Counters.zero_add _).symm
  · intro x
    have hz : S.sel (initState.agg x) = Metrics.zero := S.sel_zero
    rw [hz]
    exact (Counters.zero_add _).symm

/-- Counters of `b` are exactly twice those of `a`. -/
def Metrics.doubledCounters (b a : Metrics) : Prop :=
  b.correct = 2 * a.correct ∧ b.incorrect = 2 * a.incorrect ∧
    b.partial_ = 2 * a.partial_ ∧ b.missed = 2 * a.missed ∧
    b.spurious = 2 * a.spurious ∧ b.possible = 2 * a.possible ∧
    b.actual = 2 * a.actual

/-- The ratio fields of `b` and `a` coincide. -/
def Metrics.sameRatios (b a : Metrics) : Prop :=
  b.precision = a.precision ∧ b.«recall» = a.«recall» ∧ b.f1 = a.f1

def Schemes.doubled (b a : Schemes) : Prop :=
  b.strict.doubledCounters a.strict ∧ b.ent_type.doubledCounters a.ent_type ∧
    b.partial_.doubledCounters a.partial_ ∧ b.exact.doubledCounters a.exact

def Schemes.sameRatios (b a : Schemes) : Prop :=
  b.strict.sameRatios a.strict ∧ b.ent_type.sameRatios a.ent_type ∧
    b.partial_.sameRatios a.partial_ ∧ b.exact.sameRatios a.exact

theorem doubled_of_counters {a b : Metrics}
    (h : b.counters = a.counters.add a.counters) : b.doubledCounters a := by
  simp only [Metrics.counters, Counters.add, Counters.mk.injEq] at h
  obtain ⟨h1, h2, h3, h4, h5, h6, h7⟩ := h
  refine ⟨?_, ?_, ?_, ?_, ?_, ?_, ?_⟩ <;> omega

theorem nat_double_div (c a : Nat) :
    ((2 * c : Nat) : Rat) / ((2 * a : Nat) : Rat) = (c : Rat) / (a : Rat) := by
  push_cast
  exact mul_div_mul_left _ _ two_ne_zero

theorem nat_double_half_div (c p a : Nat) :
    (((2 * c : Nat) : Rat) + 1 / 2 * ((2 * p : Nat) : Rat)) / ((2 * a : Nat) : Rat) =
      ((c : Rat) + 1 / 2 * (p : Rat)) / ((a : Nat) : Rat) := by
  push_cast
  rw [show (2 : Rat) * c + 1 / 2 * (2 * p) = 2 * (c + 1 / 2 * p) by ring]
  exact mul_div_mul_left _ _ two_ne_zero

/-- Doubling every counter leaves the three formula-derived ratio fields
unchanged, for either credit formula. -/
theorem ratios_eq_of_doubled {a b : Metrics} {flag : Bool}
    (ha : a.prFormula flag) (hb : b.prFormula flag)
    (hd : b.doubledCounters a) : b.sameRatios a := by
  obtain ⟨hc, hi, hp, hm, hs, hposs, hact⟩ := hd
  obtain ⟨pa, ra, fa⟩ := ha
  obtain ⟨pb, rb, fb⟩ := hb
  have hff : ¬((false : Bool) = true) := by decide
  have hprec : b.precision = a.precision := by
    rw [pb, pa, hact, hc, hp]
    cases flag
    · simp only [Bool.false_eq_true, if_false]
      by_cases h0 : a.actual > 0
      · rw [if_pos (by omega : 2 * a.actual > 0), if_pos h0]
        exact nat_double_div _ _
      · rw [if_neg (by omega : ¬(2 * a.actual > 0)), if_neg h0]
    · simp only [eq_self_iff_true, if_true]
      by_cases h0 : a.actual > 0
      · rw [if_pos (by omega : 2 * a.actual > 0), if_pos h0]
        exact nat_double_half_div _ _ _
      · rw [if_neg (by omega : ¬(2 * a.actual > 0)), if_neg h0]
  have hrec : b.«recall» = a.«recall» := by
    rw [rb, ra, hposs, hc, hp]
    cases flag
    · simp only [Bool.false_eq_true, if_false]
      by_cases h0 : a.possible > 0
      · rw [if_pos (by omega : 2 * a.possible > 0), if_pos h0]
        exact nat_double_div _ _
      · rw [if_neg (by omega : ¬(2 * a.possible > 0)), if_neg h0]
    · simp only [eq_self_iff_true, if_true]
      by_cases h0 : a.possible > 0
      · rw [if_pos (by omega : 2 * a.possible > 0), if_pos h0]
        exact nat_double_half_div _ _ _
      · rw [if_neg (by omega : ¬(2 * a.possible > 0)), if_neg h0]
  refine ⟨hprec, hrec, ?_⟩
  rw [fb, fa, hprec, hrec]

/-- C10: with the default loader and matching document counts, a second call
to `evaluate` on the same evaluator — starting from the state the first call
left behind, since the instance accumulators are never reset — returns the
counters `correct`, `incorrect`, `partial`, `missed`, `spurious`, `possible`,
`actual` at exactly twice their first-call values, in every scheme, overall
and for every label, while `precision`, `recall` and `f1` equal the
single-call values. -/
theorem evaluate_twice_doubles (td pd : List (List Span)) (tags : List String)
    (h : td.length = pd.length) (st1 st2 : EvaluatorState)
    (h1 : st1 = Evaluator.run tags initState (td.zip pd))
    (h2 : st2 = Evaluator.run tags st1 (td.zip pd)) :
    Evaluator.evaluate td pd tags initState = (Except.ok (st1.results, st1.agg), st1) ∧
      Evaluator.evaluate td pd tags st1 = (Except.ok (st2.results, st2.agg), st2) ∧
      st2.results.doubled st1.results ∧
      (∀ l, (st2.agg l).doubled (st1.agg l)) ∧
      st2.results.sameRatios st1.results ∧
      ∀ l, (st2.agg l).sameRatios (st1.agg l) := by
  subst h1
  subst h2
  have hS := fun S => run_twice_counters tags (td.zip pd) S
  have hd_res :
      (Evaluator.run tags (Evaluator.run tags initState (td.zip pd)) (td.zip pd)).results.doubled
        (Evaluator.run tags initState (td.zip pd)).results :=
    ⟨doubled_of_counters (hS strictSel).1, doubled_of_counters (hS entTypeSel).1,
     doubled_of_counters (hS partialSel).1, doubled_of_counters (hS exactSel).1⟩
  have hd_agg : ∀ l,
      ((Evaluator.run tags (Evaluator.run tags initState (td.zip pd)) (td.zip pd)).agg l).doubled
        ((Evaluator.run tags initState (td.zip pd)).agg l) :=
    fun l =>
      ⟨doubled_of_counters ((hS strictSel).2 l), doubled_of_counters ((hS entTypeSel).2 l),
       doubled_of_counters ((hS partialSel).2 l), doubled_of_counters ((hS exactSel).2 l)⟩
  have hf1 := run_prFormulas tags (td.zip pd) initState zero_prFormulas
    (fun _ => zero_prFormulas)
  have hf2 := run_prFormulas tags (td.zip pd) (Evaluator.run tags initState (td.zip pd))
    hf1.1 hf1.2
  refine ⟨by simp [Evaluator.evaluate, h], by simp [Evaluator.evaluate, h],
    hd_res, hd_agg, ?_, ?_⟩
  · exact ⟨ratios_eq_of_doubled hf1.1.1 hf2.1.1 hd_res.1,
      ratios_eq_of_doubled hf1.1.2.1 hf2.1.2.1 hd_res.2.1,
      ratios_eq_of_doubled hf1.1.2.2.1 hf2.1.2.2.1 hd_res.2.2.1,
      ratios_eq_of_doubled hf1.1.2.2.2 hf2.1.2.2.2 hd_res.2.2.2⟩
  · intro l
    exact ⟨ratios_eq_of_doubled (hf1.2 l).1 (hf2.2 l).1 (hd_agg l).1,
      ratios_eq_of_doubled (hf1.2 l).2.1 (hf2.2 l).2.1 (hd_agg l).2.1,
      ratios_eq_of_doubled (hf1.2 l).2.2.1 (hf2.2 l).2.2.1 (hd_agg l).2.2.1,
      ratios_eq_of_doubled (hf1.2 l).2.2.2 (hf2.2 l).2.2.2 (hd_agg l).2.2.2⟩

/-- Witness for C10 on a concrete one-document corpus. -/
theorem evaluate_twice_doubles_witness :
    ([[⟨0, 2, "A"⟩]] : List (List Span)).length =
        ([[⟨0, 3, "A"⟩]] : List (List Span)).length ∧
      (Evaluator.run ["A"] (Evaluator.run ["A"] initState
            ([[⟨0, 2, "A"⟩]].zip [[⟨0, 3, "A"⟩]])) ([[⟨0, 2, "A"⟩]].zip [[⟨0, 3, "A"⟩]])).results.doubled
        (Evaluator.run ["A"] initState ([[⟨0, 2, "A"⟩]].zip [[⟨0, 3, "A"⟩]])).results ∧
      (Evaluator.run ["A"] (Evaluator.run ["A"] initState
            ([[⟨0, 2, "A"⟩]].zip [[⟨0, 3, "A"⟩]])) ([[⟨0, 2, "A"⟩]].zip [[⟨0, 3, "A"⟩]])).results.sameRatios
        (Evaluator.run ["A"] initState ([[⟨0, 2, "A"⟩]].zip [[⟨0, 3, "A"⟩]])).results :=
  ⟨by decide,
    (evaluate_twice_doubles [[⟨0, 2, "A"⟩]] [[⟨0, 3, "A"⟩]] ["A"] (by decide)
      _ _ rfl rfl).2.2.1,
    (evaluate_twice_doubles [[⟨0, 2, "A"⟩]] [[⟨0, 3, "A"⟩]] ["A"] (by decide)
      _ _ rfl rfl).2.2.2.2.1⟩
